import Mathlib

/-!
Shallow embedding of the cache-cluster layer of the repository: the
`cacheCluster` type, its single-key and batch operations, and the `New`
constructor, as written in the cache package, together with models of the
interfaces that code consumes (`hash.ConsistentHash`, `errorx.BatchError`,
`errors.Is`).  Go `error` results become `Option GoError` (`none` = `nil`).
-/

/-- Go `context.Context`, opaque to the cluster code: it is only threaded
through to the delegated node calls.  `background` models
`context.Background()`. -/
inductive Context where
  | background : Context
  | other : Nat → Context

/-- Opaque handle for the `syncx.SingleFlight` barrier argument of `New`;
its behaviour is not consumed by the cluster code under verification. -/
structure SingleFlight where
  id : Nat

/-- Opaque handle for the `*Stat` argument of `New`. -/
structure Stat where
  id : Nat

/-- Opaque handle for the trailing `opts ...Option` arguments of `New`. -/
structure Opts where
  id : Nat

/-- Go `interface{}` values handed through cluster operations (`val`);
opaque to the cluster code. -/
abbrev Val := Nat

/-- Go `time.Duration` (an `int64` nanosecond count). -/
abbrev Duration := Int

/-- Go `error` values as the cluster observes them: a flat error carrying
its message, a wrapping error (as produced with `%w`), and the composite
value a `BatchError` aggregate yields. -/
inductive GoError where
  | base : String → GoError
  | wrap : String → GoError → GoError
  | batch : List GoError → GoError

/-- Structural equality test on `GoError` (Go compares error values by
identity; distinct constructions are distinct values). -/
def GoError.beq : GoError → GoError → Bool
  | .base s, .base t => s == t
  | .wrap s a, .wrap t b => s == t && GoError.beq a b
  | .batch [], .batch [] => true
  | .batch (a :: as), .batch (b :: bs) =>
      GoError.beq a b && GoError.beq (.batch as) (.batch bs)
  | _, _ => false

/-- Modelled from the spec: Go's `errors.Is` (standard library, absent from
the repository's sources).  Per the spec, not-found classification is
"equality against the sentinel configured at cluster construction, or
transitive identity through error wrapping": `errorsIs e target` reports
whether `e` equals `target` or an error reached from `e` by unwrapping
does.  Only `wrap` errors unwrap. -/
def errorsIs : GoError → GoError → Bool
  | .wrap s inner, target => GoError.beq (.wrap s inner) target || errorsIs inner target
  | e, target => GoError.beq e target

/-- `e` is the error `target` itself, or transitively wraps it. -/
inductive IsOrWraps : GoError → GoError → Prop where
  | refl (e : GoError) : IsOrWraps e e
  | step (msg : String) (inner target : GoError) :
      IsOrWraps inner target → IsOrWraps (.wrap msg inner) target

/-- The `Cache` interface of the source, restricted to the context-aware
methods the cluster delegates to (every delegation in `cacheCluster` is a
`c.(Cache).XxxCtx(...)` call).  A node is a record of those methods. -/
structure Cache where
  DelCtx : Context → List String → Option GoError
  GetCtx : Context → String → Val → Option GoError
  SetCtx : Context → String → Val → Option GoError
  SetWithExpireCtx : Context → String → Val → Duration → Option GoError
  TakeCtx : Context → Val → String → (Val → Option GoError) → Option GoError
  TakeWithExpireCtx : Context → Val → String → (Val → Duration → Option GoError) → Option GoError

/-- Modelled from the spec: `hash.ConsistentHash` is absent from the
repository's sources and the cluster code uses only its
`Get(key) -> (node, ok)` method; per the spec that method deterministically
resolves a key to one registered node handle and reports `found = false`
only when the ring is empty.  The ring is therefore modelled by its
resolution function; node handles are numeric identifiers. -/
structure ConsistentHash where
  Get : String → Option Nat

/-- The `cacheCluster` struct of the source.  In Go the dispatcher returns
the node value itself, which is both the map key used for grouping and the
`Cache` the code asserts it to; the model splits that value into a numeric
handle plus the `nodes` environment interpreting each handle as its
`Cache`, so that handles can key the grouping map. -/
structure cacheCluster where
  dispatcher : ConsistentHash
  errNotFound : GoError
  nodes : Nat → Cache

/-- `fmt.Errorf("key %q not found", key)`: a flat error whose message
quotes the unroutable key. -/
def keyNotFoundErr (key : String) : GoError :=
  .base ("key \"" ++ key ++ "\" not found")

/-- Modelled from the spec: `errorx.BatchError` is absent from the
repository's sources.  Per the spec it is "composite of zero or more of the
above, one per failing key, for multi-key operations; if empty, the batch
fully succeeded": it is modelled as the list of recorded errors, in the
order they were added. -/
abbrev BatchError := List GoError

/-- `be.Add(err)`: records one more failure in the aggregate. -/
def BatchError.add (be : BatchError) (e : GoError) : BatchError :=
  be ++ [e]

/-- `be.Err()`: `nil` when no failure was recorded, otherwise the composite
carrying every recorded failure. -/
def BatchError.err (be : BatchError) : Option GoError :=
  if be.isEmpty then none else some (.batch be)

/-- `nodes[c] = append(nodes[c], key)` on the grouping map of `DelCtx`,
represented as an association list in first-insertion order.  (Go's map
iteration order is unspecified; the properties proved below are
order-insensitive.) -/
def addToGroup : List (Nat × List String) → Nat → String → List (Nat × List String)
  | [], c, key => [(c, [key])]
  | (d, ks) :: rest, c, key =>
      if d = c then (d, ks ++ [key]) :: rest
      else (d, ks) :: addToGroup rest c key

/-- The first loop of the multi-key branch of `DelCtx`: walk `keys`,
record a routing error for each key the dispatcher cannot resolve, and
group the resolvable keys under their resolved node. -/
def cacheCluster.routeDel (cc : cacheCluster) :
    List String → BatchError × List (Nat × List String) →
      BatchError × List (Nat × List String)
  | [], acc => acc
  | key :: rest, (be, nodes) =>
      match cc.dispatcher.Get key with
      | none => cc.routeDel rest (be.add (keyNotFoundErr key), nodes)
      | some c => cc.routeDel rest (be, addToGroup nodes c key)

/-- The second loop of the multi-key branch of `DelCtx`: execute each
node's batch delete, recording every failed batch in the aggregate. -/
def cacheCluster.runDel (cc : cacheCluster) (ctx : Context) :
    List (Nat × List String) → BatchError → BatchError
  | [], be => be
  | (c, ks) :: rest, be =>
      match (cc.nodes c).DelCtx ctx ks with
      | none => cc.runDel ctx rest be
      | some e => cc.runDel ctx rest (be.add e)

/-- `cacheCluster.DelCtx` of the source: no keys is a no-op; one key is
routed directly; two or more keys are grouped by resolved node, each
group's batch executed, and the aggregate's `Err()` returned. -/
def cacheCluster.DelCtx (cc : cacheCluster) (ctx : Context) (keys : List String) :
    Option GoError :=
  match keys with
  | [] => none
  | [key] =>
      match cc.dispatcher.Get key with
      | none => some cc.errNotFound
      | some c => (cc.nodes c).DelCtx ctx [key]
  | _ =>
      let acc := cc.routeDel keys ([], [])
      (cc.runDel ctx acc.2 acc.1).err

/-- `cacheCluster.Del` of the source. -/
def cacheCluster.Del (cc : cacheCluster) (keys : List String) : Option GoError :=
  cc.DelCtx .background keys

/-- `cacheCluster.GetCtx` of the source. -/
def cacheCluster.GetCtx (cc : cacheCluster) (ctx : Context) (key : String) (val : Val) :
    Option GoError :=
  match cc.dispatcher.Get key with
  | none => some cc.errNotFound
  | some c => (cc.nodes c).GetCtx ctx key val

/-- `cacheCluster.Get` of the source. -/
def cacheCluster.Get (cc : cacheCluster) (key : String) (val : Val) : Option GoError :=
  cc.GetCtx .background key val

/-- `cacheCluster.IsNotFound` of the source: `errors.Is(err, cc.errNotFound)`. -/
def cacheCluster.IsNotFound (cc : cacheCluster) (e : GoError) : Bool :=
  errorsIs e cc.errNotFound

/-- `cacheCluster.SetCtx` of the source. -/
def cacheCluster.SetCtx (cc : cacheCluster) (ctx : Context) (key : String) (val : Val) :
    Option GoError :=
  match cc.dispatcher.Get key with
  | none => some cc.errNotFound
  | some c => (cc.nodes c).SetCtx ctx key val

/-- `cacheCluster.Set` of the source. -/
def cacheCluster.Set (cc : cacheCluster) (key : String) (val : Val) : Option GoError :=
  cc.SetCtx .background key val

/-- `cacheCluster.SetWithExpireCtx` of the source. -/
def cacheCluster.SetWithExpireCtx (cc : cacheCluster) (ctx : Context) (key : String)
    (val : Val) (expire : Duration) : Option GoError :=
  match cc.dispatcher.Get key with
  | none => some cc.errNotFound
  | some c => (cc.nodes c).SetWithExpireCtx ctx key val expire

/-- `cacheCluster.SetWithExpire` of the source. -/
def cacheCluster.SetWithExpire (cc : cacheCluster) (key : String) (val : Val)
    (expire : Duration) : Option GoError :=
  cc.SetWithExpireCtx .background key val expire

/-- `cacheCluster.TakeCtx` of the source. -/
def cacheCluster.TakeCtx (cc : cacheCluster) (ctx : Context) (val : Val) (key : String)
    (query : Val → Option GoError) : Option GoError :=
  match cc.dispatcher.Get key with
  | none => some cc.errNotFound
  | some c => (cc.nodes c).TakeCtx ctx val key query

/-- `cacheCluster.Take` of the source. -/
def cacheCluster.Take (cc : cacheCluster) (val : Val) (key : String)
    (query : Val → Option GoError) : Option GoError :=
  cc.TakeCtx .background val key query

/-- `cacheCluster.TakeWithExpireCtx` of the source. -/
def cacheCluster.TakeWithExpireCtx (cc : cacheCluster) (ctx : Context) (val : Val)
    (key : String) (query : Val → Duration → Option GoError) : Option GoError :=
  match cc.dispatcher.Get key with
  | none => some cc.errNotFound
  | some c => (cc.nodes c).TakeWithExpireCtx ctx val key query

/-- `cacheCluster.TakeWithExpire` of the source. -/
def cacheCluster.TakeWithExpire (cc : cacheCluster) (val : Val) (key : String)
    (query : Val → Duration → Option GoError) : Option GoError :=
  cc.TakeWithExpireCtx .background val key query

/-- One node's configuration entry: its weight and the (opaque) parameters
used to construct the node's Redis collaborator. -/
structure NodeConf where
  Weight : Int
  RedisConf : Nat

/-- `ClusterConf`: the ordered list of node descriptors. -/
abbrev ClusterConf := List NodeConf

/-- Modelled from the spec: `TotalWeights` is absent from the repository's
sources; per the spec it is the "total weight across all registered
nodes". -/
def TotalWeights (c : ClusterConf) : Int :=
  (c.map (·.Weight)).sum

/-- What `New` yields: `log.Fatal` aborts the process before any traffic is
served (`fatal`), otherwise a working `Cache`, which is either the single
configured node itself or a `cacheCluster`. -/
inductive NewResult where
  | fatal : String → NewResult
  | node : Cache → NewResult
  | cluster : cacheCluster → NewResult

/-- `New` of the source.  The collaborators absent from the sources are
passed in as functions: `NewNode` builds one cache node from its Redis
parameters, the shared single-flight barrier, the stats handle, the
sentinel and the options; `buildRing` stands for the
`NewConsistentHash`/`AddWithWeight` loop of the multi-node branch and
yields the dispatcher together with the environment resolving its node
handles. -/
def New (NewNode : Nat → SingleFlight → Stat → GoError → Opts → Cache)
    (buildRing : ClusterConf → ConsistentHash × (Nat → Cache))
    (c : ClusterConf) (barrier : SingleFlight) (st : Stat) (errNotFound : GoError)
    (opts : Opts) : NewResult :=
  if c.length = 0 ∨ TotalWeights c ≤ 0 then
    .fatal "no cache nodes"
  else
    match c with
    | [n] => .node (NewNode n.RedisConf barrier st errNotFound opts)
    | _ =>
        let built := buildRing c
        .cluster { dispatcher := built.1, errNotFound := errNotFound, nodes := built.2 }

/-- The list of `(node, batch)` delete calls the multi-key branch of
`DelCtx` delegates: the grouping map in insertion order. -/
def delGroups (cc : cacheCluster) (keys : List String) : List (Nat × List String) :=
  (cc.routeDel keys ([], [])).2

/-- The aggregate `BatchError` the multi-key branch of `DelCtx` has built
once both loops ran: routing errors first, then the failed batches. -/
def delAggregate (cc : cacheCluster) (ctx : Context) (keys : List String) : BatchError :=
  cc.runDel ctx (delGroups cc keys) (cc.routeDel keys ([], [])).1

/-- First entry for a node handle in a grouping map. -/
def findGroup : List (Nat × List String) → Nat → Option (List String)
  | [], _ => none
  | (d, ks) :: rest, c => if d = c then some ks else findGroup rest c

/-- The grouping loop in isolation: fold `addToGroup` over resolved
`(node, key)` pairs. -/
def groupFold (gs : List (Nat × List String)) : List (Nat × String) → List (Nat × List String)
  | [] => gs
  | p :: ps => groupFold (addToGroup gs p.1 p.2) ps

/-- The keys that a list of `(node, key)` pairs assigns to node `c`, in
order. -/
def groupOf (ps : List (Nat × String)) (c : Nat) : List String :=
  (ps.filter (fun p => p.1 = c)).map Prod.snd

/-- The `(node, key)` pairs of the keys the dispatcher resolves, in key
order. -/
def resolvedPairs (cc : cacheCluster) (keys : List String) : List (Nat × String) :=
  keys.filterMap (fun k => (cc.dispatcher.Get k).map (fun c => (c, k)))

/-- A concrete node whose operations all succeed. -/
def okNode : Cache where
  DelCtx := fun _ _ => none
  GetCtx := fun _ _ _ => none
  SetCtx := fun _ _ _ => none
  SetWithExpireCtx := fun _ _ _ _ => none
  TakeCtx := fun _ _ _ _ => none
  TakeWithExpireCtx := fun _ _ _ _ => none

/-- A concrete node whose operations all fail with a flat storage error. -/
def failNode : Cache where
  DelCtx := fun _ _ => some (.base "storage down")
  GetCtx := fun _ _ _ => some (.base "storage down")
  SetCtx := fun _ _ _ => some (.base "storage down")
  SetWithExpireCtx := fun _ _ _ _ => some (.base "storage down")
  TakeCtx := fun _ _ _ _ => some (.base "storage down")
  TakeWithExpireCtx := fun _ _ _ _ => some (.base "storage down")

/-- A concrete cluster over an empty ring: no key resolves. -/
def emptyRingCluster : cacheCluster where
  dispatcher := ⟨fun _ => none⟩
  errNotFound := .base "cache: no entry"
  nodes := fun _ => okNode

/-- A concrete cluster routing every key to node 1, whose operations
succeed. -/
def routedCluster : cacheCluster where
  dispatcher := ⟨fun _ => some 1⟩
  errNotFound := .base "cache: no entry"
  nodes := fun _ => okNode

/-- A concrete cluster that cannot route the empty key, routes every other
key to node 0, and whose node operations fail. -/
def mixedCluster : cacheCluster where
  dispatcher := ⟨fun k => if k.length = 0 then none else some 0⟩
  errNotFound := .base "cache: no entry"
  nodes := fun _ => failNode

/-- A concrete stand-in for the `NewNode` collaborator of `New`. -/
def mkNodeW : Nat → SingleFlight → Stat → GoError → Opts → Cache :=
  fun _ _ _ _ _ => okNode

/-- A concrete stand-in for the ring-building collaborator of `New`. -/
def buildRingW : ClusterConf → ConsistentHash × (Nat → Cache) :=
  fun _ => (⟨fun _ => none⟩, fun _ => okNode)

/-- `GoError.beq` is propositional equality. -/
theorem GoError.beq_iff_eq : ∀ (a b : GoError), GoError.beq a b = true ↔ a = b
  | .base _, .base _ => by simp [GoError.beq]
  | .base _, .wrap _ _ => by simp [GoError.beq]
  | .base _, .batch _ => by simp [GoError.beq]
  | .wrap _ _, .base _ => by simp [GoError.beq]
  | .wrap s a, .wrap t b => by
      rw [GoError.beq]
      simp [Bool.and_eq_true, GoError.beq_iff_eq a b]
  | .wrap _ _, .batch _ => by simp [GoError.beq]
  | .batch _, .base _ => by simp [GoError.beq]
  | .batch _, .wrap _ _ => by simp [GoError.beq]
  | .batch [], .batch [] => by simp [GoError.beq]
  | .batch [], .batch (_ :: _) => by simp [GoError.beq]
  | .batch (_ :: _), .batch [] => by simp [GoError.beq]
  | .batch (a :: as), .batch (b :: bs) => by
      rw [GoError.beq]
      simp [Bool.and_eq_true, GoError.beq_iff_eq a b,
        GoError.beq_iff_eq (.batch as) (.batch bs)]

/-- `errorsIs` holds exactly when the error is, or transitively wraps, the
target. -/
theorem errorsIs_iff : ∀ (e target : GoError),
    errorsIs e target = true ↔ IsOrWraps e target
  | .base s, t => by
      constructor
      · intro h
        have hb : GoError.base s = t := (GoError.beq_iff_eq _ _).mp (by simpa [errorsIs] using h)
        exact hb ▸ IsOrWraps.refl _
      · intro h
        cases h
        simpa [errorsIs] using (GoError.beq_iff_eq _ _).mpr rfl
  | .wrap s inner, t => by
      have ih := errorsIs_iff inner t
      constructor
      · intro h
        rcases Bool.or_eq_true_iff.mp (by simpa [errorsIs] using h) with hb | hrec
        · exact (GoError.beq_iff_eq _ _).mp hb ▸ IsOrWraps.refl _
        · exact IsOrWraps.step s inner t (ih.mp hrec)
      · intro h
        cases h with
        | refl =>
            simp [errorsIs, Bool.or_eq_true_iff]
            exact Or.inl ((GoError.beq_iff_eq _ _).mpr rfl)
        | step _ _ _ hh =>
            simp [errorsIs, Bool.or_eq_true_iff]
            exact Or.inr (ih.mpr hh)
  | .batch es, t => by
      constructor
      · intro h
        have hb : GoError.batch es = t := (GoError.beq_iff_eq _ _).mp (by simpa [errorsIs] using h)
        exact hb ▸ IsOrWraps.refl _
      · intro h
        cases h
        simpa [errorsIs] using (GoError.beq_iff_eq _ _).mpr rfl

/-- Claim C7: `cc.IsNotFound e` is true exactly when `e` is, or transitively
wraps, the not-found sentinel configured at cluster construction. -/
theorem IsNotFound_iff_wraps_sentinel (cc : cacheCluster) (e : GoError) :
    cc.IsNotFound e = true ↔ IsOrWraps e cc.errNotFound :=
  errorsIs_iff e cc.errNotFound

/-- Claim C10: every non-context cluster method returns exactly the result
of its `Ctx` counterpart invoked with the background context and the same
arguments. -/
theorem nonctx_methods_delegate_to_ctx (cc : cacheCluster) (keys : List String)
    (key : String) (val : Val) (expire : Duration) (q : Val → Option GoError)
    (qe : Val → Duration → Option GoError) :
    cc.Del keys = cc.DelCtx .background keys ∧
    cc.Get key val = cc.GetCtx .background key val ∧
    cc.Set key val = cc.SetCtx .background key val ∧
    cc.SetWithExpire key val expire = cc.SetWithExpireCtx .background key val expire ∧
    cc.Take val key q = cc.TakeCtx .background val key q ∧
    cc.TakeWithExpire val key qe = cc.TakeWithExpireCtx .background val key qe :=
  ⟨rfl, rfl, rfl, rfl, rfl, rfl⟩

/-- Claim C1: every single-key cluster operation (and its non-context
variant, which the source routes through the background context) returns
the cluster's configured not-found sentinel when the ring resolves no node
for the key, and otherwise returns exactly the result of the corresponding
operation, with the same arguments, on the resolved node. -/
theorem single_key_ops_delegate (cc : cacheCluster) (ctx : Context) (key : String)
    (val : Val) (expire : Duration) (q : Val → Option GoError)
    (qe : Val → Duration → Option GoError) :
    (cc.dispatcher.Get key = none →
      cc.GetCtx ctx key val = some cc.errNotFound ∧
      cc.SetCtx ctx key val = some cc.errNotFound ∧
      cc.SetWithExpireCtx ctx key val expire = some cc.errNotFound ∧
      cc.TakeCtx ctx val key q = some cc.errNotFound ∧
      cc.TakeWithExpireCtx ctx val key qe = some cc.errNotFound ∧
      cc.Get key val = some cc.errNotFound ∧
      cc.Set key val = some cc.errNotFound ∧
      cc.SetWithExpire key val expire = some cc.errNotFound ∧
      cc.Take val key q = some cc.errNotFound ∧
      cc.TakeWithExpire val key qe = some cc.errNotFound) ∧
    (∀ c, cc.dispatcher.Get key = some c →
      cc.GetCtx ctx key val = (cc.nodes c).GetCtx ctx key val ∧
      cc.SetCtx ctx key val = (cc.nodes c).SetCtx ctx key val ∧
      cc.SetWithExpireCtx ctx key val expire = (cc.nodes c).SetWithExpireCtx ctx key val expire ∧
      cc.TakeCtx ctx val key q = (cc.nodes c).TakeCtx ctx val key q ∧
      cc.TakeWithExpireCtx ctx val key qe = (cc.nodes c).TakeWithExpireCtx ctx val key qe ∧
      cc.Get key val = (cc.nodes c).GetCtx .background key val ∧
      cc.Set key val = (cc.nodes c).SetCtx .background key val ∧
      cc.SetWithExpire key val expire = (cc.nodes c).SetWithExpireCtx .background key val expire ∧
      cc.Take val key q = (cc.nodes c).TakeCtx .background val key q ∧
      cc.TakeWithExpire val key qe = (cc.nodes c).TakeWithExpireCtx .background val key qe) := by
  constructor
  · intro h
    simp [cacheCluster.GetCtx, cacheCluster.SetCtx, cacheCluster.SetWithExpireCtx,
      cacheCluster.TakeCtx, cacheCluster.TakeWithExpireCtx, cacheCluster.Get,
      cacheCluster.Set, cacheCluster.SetWithExpire, cacheCluster.Take,
      cacheCluster.TakeWithExpire, h]
  · intro c h
    simp [cacheCluster.GetCtx, cacheCluster.SetCtx, cacheCluster.SetWithExpireCtx,
      cacheCluster.TakeCtx, cacheCluster.TakeWithExpireCtx, cacheCluster.Get,
      cacheCluster.Set, cacheCluster.SetWithExpire, cacheCluster.Take,
      cacheCluster.TakeWithExpire, h]

/-- Claim C6: deleting zero keys is a no-op success; deleting exactly one
key is routed directly like a single-key operation, returning the not-found
sentinel when no node resolves and otherwise delegating the delete to the
owning node. -/
theorem del_zero_and_one_key (cc : cacheCluster) (ctx : Context) (key : String) :
    cc.DelCtx ctx [] = none ∧
    cc.Del [] = none ∧
    (cc.dispatcher.Get key = none →
      cc.DelCtx ctx [key] = some cc.errNotFound ∧
      cc.Del [key] = some cc.errNotFound) ∧
    (∀ c, cc.dispatcher.Get key = some c →
      cc.DelCtx ctx [key] = (cc.nodes c).DelCtx ctx [key] ∧
      cc.Del [key] = (cc.nodes c).DelCtx .background [key]) := by
  refine ⟨rfl, rfl, fun h => ?_, fun c h => ?_⟩
  · simp [cacheCluster.Del, cacheCluster.DelCtx, h]
  · simp [cacheCluster.Del, cacheCluster.DelCtx, h]

/-- Claim C4: when the configured node list is empty or the total weight is
not positive, `New` aborts with the fatal configuration error (`log.Fatal`)
before any traffic is served, and never yields a working cache. -/
theorem New_misconfigured_is_fatal (nn : Nat → SingleFlight → Stat → GoError → Opts → Cache)
    (bld : ClusterConf → ConsistentHash × (Nat → Cache)) (c : ClusterConf)
    (barrier : SingleFlight) (st : Stat) (errNotFound : GoError) (opts : Opts)
    (h : c.length = 0 ∨ TotalWeights c ≤ 0) :
    New nn bld c barrier st errNotFound opts = .fatal "no cache nodes" := by
  unfold New
  rw [if_pos h]

/-- Witness for C4: the empty configuration aborts construction. -/
theorem New_misconfigured_is_fatal_witness :
    New mkNodeW buildRingW [] ⟨0⟩ ⟨0⟩ (.base "nf") ⟨0⟩ = .fatal "no cache nodes" :=
  New_misconfigured_is_fatal mkNodeW buildRingW [] ⟨0⟩ ⟨0⟩ (.base "nf") ⟨0⟩ (Or.inl rfl)

/-- Claim C9: with exactly one configured node (and a valid total weight),
`New` returns that single node itself — no `cacheCluster` and no hash ring
are built, so the cache's behaviour is the node's behaviour. -/
theorem New_single_node_is_the_node (nn : Nat → SingleFlight → Stat → GoError → Opts → Cache)
    (bld : ClusterConf → ConsistentHash × (Nat → Cache)) (n : NodeConf)
    (barrier : SingleFlight) (st : Stat) (errNotFound : GoError) (opts : Opts)
    (h : 0 < TotalWeights [n]) :
    New nn bld [n] barrier st errNotFound opts =
      .node (nn n.RedisConf barrier st errNotFound opts) := by
  have hg : ¬(([n] : ClusterConf).length = 0 ∨ TotalWeights [n] ≤ 0) := by
    push_neg
    exact ⟨by simp, by omega⟩
  unfold New
  rw [if_neg hg]

/-- Witness for C9: a one-node configuration of weight 100 yields the node
built by the `NewNode` collaborator. -/
theorem New_single_node_is_the_node_witness :
    New mkNodeW buildRingW [⟨100, 7⟩] ⟨0⟩ ⟨0⟩ (.base "nf") ⟨0⟩ =
      .node (mkNodeW 7 ⟨0⟩ ⟨0⟩ (.base "nf") ⟨0⟩) :=
  New_single_node_is_the_node mkNodeW buildRingW ⟨100, 7⟩ ⟨0⟩ ⟨0⟩ (.base "nf") ⟨0⟩ (by decide)

/-- The routing loop's aggregate: one routing error, naming the key, per
unroutable key, appended after whatever was already recorded. -/
theorem routeDel_fst (cc : cacheCluster) :
    ∀ (keys : List String) (be : BatchError) (gs : List (Nat × List String)),
      (cc.routeDel keys (be, gs)).1 =
        be ++ (keys.filter (fun k => (cc.dispatcher.Get k).isNone)).map keyNotFoundErr
  | [], be, gs => by simp [cacheCluster.routeDel]
  | key :: rest, be, gs => by
      cases h : cc.dispatcher.Get key with
      | none =>
          simp [cacheCluster.routeDel, h, routeDel_fst cc rest, BatchError.add,
            List.filter_cons]
      | some c =>
          simp [cacheCluster.routeDel, h, routeDel_fst cc rest, List.filter_cons]

/-- The routing loop's grouping map: folding the resolved `(node, key)`
pairs through `addToGroup`. -/
theorem routeDel_snd (cc : cacheCluster) :
    ∀ (keys : List String) (be : BatchError) (gs : List (Nat × List String)),
      (cc.routeDel keys (be, gs)).2 = groupFold gs (resolvedPairs cc keys)
  | [], be, gs => by simp [cacheCluster.routeDel, resolvedPairs, groupFold]
  | key :: rest, be, gs => by
      cases h : cc.dispatcher.Get key with
      | none =>
          simp [cacheCluster.routeDel, h, resolvedPairs, List.filterMap_cons,
            routeDel_snd cc rest]
      | some c =>
          simp [cacheCluster.routeDel, h, resolvedPairs, List.filterMap_cons,
            groupFold, routeDel_snd cc rest]

/-- The execution loop appends one error per failed batch to the
aggregate. -/
theorem runDel_append (cc : cacheCluster) (ctx : Context) :
    ∀ (gs : List (Nat × List String)) (be : BatchError),
      cc.runDel ctx gs be =
        be ++ gs.filterMap (fun g => (cc.nodes g.1).DelCtx ctx g.2)
  | [], be => by simp [cacheCluster.runDel]
  | (c, ks) :: rest, be => by
      cases h : (cc.nodes c).DelCtx ctx ks with
      | none =>
          simp [cacheCluster.runDel, h, runDel_append cc ctx rest,
            List.filterMap_cons]
      | some e =>
          simp [cacheCluster.runDel, h, runDel_append cc ctx rest,
            BatchError.add, List.filterMap_cons]

/-- On two or more keys, `DelCtx` returns the `Err()` of the aggregate both
loops built. -/
theorem DelCtx_multi (cc : cacheCluster) (ctx : Context) :
    ∀ (keys : List String), 2 ≤ keys.length →
      cc.DelCtx ctx keys = (delAggregate cc ctx keys).err
  | [], h => by simp at h
  | [_], h => by simp at h
  | _ :: _ :: _, _ => rfl

/-- `Err()` is `nil` exactly when the aggregate recorded no failure. -/
theorem BatchError.err_eq_none_iff (be : BatchError) : be.err = none ↔ be = [] := by
  cases be with
  | nil => simp [BatchError.err]
  | cons a l => simp [BatchError.err]

/-- Claim C2: on a multi-key delete, every key the ring cannot resolve is
recorded in the aggregate as a routing error naming that key, every failed
per-node batch delete is recorded with its cause, and the composite error
returned is exactly the batch of that aggregate — no per-key failure is
dropped.  (A failed batch is recorded as the owning node's error for the
whole batch, which is its keys' common cause.) -/
theorem DelCtx_records_every_failure (cc : cacheCluster) (ctx : Context)
    (keys : List String) (h2 : 2 ≤ keys.length) :
    (∀ k ∈ keys, cc.dispatcher.Get k = none →
      keyNotFoundErr k ∈ delAggregate cc ctx keys) ∧
    (∀ c ks e, (c, ks) ∈ delGroups cc keys →
      (cc.nodes c).DelCtx ctx ks = some e → e ∈ delAggregate cc ctx keys) ∧
    (delAggregate cc ctx keys ≠ [] →
      cc.DelCtx ctx keys = some (.batch (delAggregate cc ctx keys))) := by
  refine ⟨?_, ?_, ?_⟩
  · intro k hk hnone
    rw [delAggregate, runDel_append, routeDel_fst]
    refine List.mem_append_left _ (List.mem_append_right _ ?_)
    exact List.mem_map.mpr ⟨k, List.mem_filter.mpr ⟨hk, by simp [hnone]⟩, rfl⟩
  · intro c ks e hmem hdel
    rw [delAggregate, runDel_append]
    exact List.mem_append_right _ (List.mem_filterMap.mpr ⟨(c, ks), hmem, hdel⟩)
  · intro hne
    have hfalse : (delAggregate cc ctx keys).isEmpty = false := by
      cases hl : delAggregate cc ctx keys with
      | nil => exact absurd hl hne
      | cons a l => simp
    rw [DelCtx_multi cc ctx keys h2, BatchError.err, hfalse]
    simp

/-- Witness for C2: with keys `["", "b"]`, the empty key unroutable and the
key `"b"` owned by a node whose delete fails, both failures appear in the
aggregate and `DelCtx` returns the composite of that aggregate. -/
theorem DelCtx_records_every_failure_witness :
    keyNotFoundErr "" ∈ delAggregate mixedCluster .background ["", "b"] ∧
    GoError.base "storage down" ∈ delAggregate mixedCluster .background ["", "b"] ∧
    cacheCluster.DelCtx mixedCluster .background ["", "b"] =
      some (.batch (delAggregate mixedCluster .background ["", "b"])) := by
  have h := DelCtx_records_every_failure mixedCluster .background ["", "b"] (by simp)
  refine ⟨h.1 "" (by simp) rfl, h.2.1 0 ["b"] (.base "storage down") ?_ rfl, h.2.2 ?_⟩
  · show (0, ["b"]) ∈ ([(0, ["b"])] : List (Nat × List String))
    exact List.mem_singleton.mpr rfl
  · show (keyNotFoundErr "" :: [GoError.base "storage down"] : List GoError) ≠ []
    exact List.cons_ne_nil _ _

/-- Claim C3: a multi-key delete returns `nil` exactly when every key
resolved to a node and every delegated per-node batch delete succeeded (the
aggregate stayed empty). -/
theorem DelCtx_none_iff_all_succeed (cc : cacheCluster) (ctx : Context)
    (keys : List String) (h2 : 2 ≤ keys.length) :
    cc.DelCtx ctx keys = none ↔
      (∀ k ∈ keys, (cc.dispatcher.Get k).isSome = true) ∧
      (∀ c ks, (c, ks) ∈ delGroups cc keys →
        (cc.nodes c).DelCtx ctx ks = none) := by
  rw [DelCtx_multi cc ctx keys h2, BatchError.err_eq_none_iff]
  rw [delAggregate, runDel_append, routeDel_fst]
  rw [List.nil_append, List.append_eq_nil, List.map_eq_nil_iff, List.filter_eq_nil_iff]
  constructor
  · rintro ⟨h1, hfm⟩
    refine ⟨fun k hk => ?_, fun c ks hm => ?_⟩
    · cases hg : cc.dispatcher.Get k with
      | none => exact absurd (by simp [hg]) (h1 k hk)
      | some c => simp
    · have := (List.filterMap_eq_nil_iff.mp hfm) (c, ks) (by simpa [delGroups] using hm)
      simpa using this
  · rintro ⟨hres, hok⟩
    refine ⟨fun k hk => ?_, ?_⟩
    · have := hres k hk
      cases hg : cc.dispatcher.Get k with
      | none => rw [hg] at this; simp at this
      | some c => simp [hg]
    · refine List.filterMap_eq_nil_iff.mpr ?_
      rintro ⟨c, ks⟩ hm
      exact hok c ks (by simpa [delGroups] using hm)

/-- Witness for C3: on a cluster that routes both keys to a node whose
deletes succeed, `DelCtx` returns `nil`, so every key resolved and every
delegated batch succeeded. -/
theorem DelCtx_none_iff_all_succeed_witness :
    (∀ k ∈ (["a", "b"] : List String), (routedCluster.dispatcher.Get k).isSome = true) ∧
    (∀ c ks, (c, ks) ∈ delGroups routedCluster ["a", "b"] →
      (routedCluster.nodes c).DelCtx .background ks = none) :=
  (DelCtx_none_iff_all_succeed routedCluster .background ["a", "b"] (by simp)).mp rfl

/-- `addToGroup` appends the key to the first entry of the target node, or
opens a new entry at the end; every other node's entry is untouched. -/
theorem findGroup_addToGroup :
    ∀ (gs : List (Nat × List String)) (d c : Nat) (k : String),
      findGroup (addToGroup gs d k) c =
        if c = d then some (((findGroup gs d).getD []) ++ [k]) else findGroup gs c
  | [], d, c, k => by
      by_cases h : c = d
      · simp [addToGroup, findGroup, h]
      · simp [addToGroup, findGroup, h, Ne.symm h]
  | (e, ls) :: rest, d, c, k => by
      by_cases hed : e = d
      · subst hed
        by_cases hc : c = e
        · subst hc
          simp [addToGroup, findGroup]
        · simp [addToGroup, findGroup, hc, Ne.symm hc]
      · by_cases hec : e = c
        · have hcd : ¬c = d := fun h => hed (hec.trans h)
          simp [addToGroup, findGroup, hed, hec, hcd]
        · simp [addToGroup, findGroup, hed, hec, findGroup_addToGroup rest d c k]

/-- The grouping fold assigns node `c` exactly the keys the pair list gives
it, appended after whatever the accumulator already held for `c`. -/
theorem groupFold_findGroup :
    ∀ (ps : List (Nat × String)) (gs : List (Nat × List String)) (c : Nat),
      findGroup (groupFold gs ps) c =
        if c ∈ ps.map Prod.fst ∨ (findGroup gs c).isSome = true
        then some ((findGroup gs c).getD [] ++ groupOf ps c)
        else none
  | [], gs, c => by
      cases h : findGroup gs c <;> simp [groupFold, groupOf, h]
  | (d, k) :: ps, gs, c => by
      rw [groupFold, groupFold_findGroup ps (addToGroup gs d k) c,
        findGroup_addToGroup]
      by_cases hcd : c = d
      · subst hcd
        simp [groupOf, List.filter_cons]
      · rw [if_neg hcd]
        simp only [groupOf, List.filter_cons]
        rw [show (decide ((d, k).1 = c)) = false by simp [Ne.symm hcd]]
        refine if_congr ?_ rfl rfl
        simp [List.mem_cons, hcd]

/-- In a grouping map whose node handles are distinct, membership is
`findGroup`. -/
theorem mem_iff_findGroup :
    ∀ (gs : List (Nat × List String)), ((gs.map Prod.fst).Nodup) →
      ∀ (c : Nat) (ks : List String), ((c, ks) ∈ gs ↔ findGroup gs c = some ks)
  | [], _, c, ks => by simp [findGroup]
  | (e, ls) :: rest, hn, c, ks => by
      rw [List.map_cons] at hn
      have hn' := List.nodup_cons.mp hn
      constructor
      · intro hm
        rcases List.mem_cons.mp hm with heq | hrest
        · rw [Prod.mk.injEq] at heq
          simp [findGroup, heq.1, heq.2]
        · have hne : ¬e = c := by
            rintro rfl
            exact hn'.1 (List.mem_map.mpr ⟨(e, ks), hrest, rfl⟩)
          rw [findGroup, if_neg hne]
          exact (mem_iff_findGroup rest hn'.2 c ks).mp hrest
      · intro hf
        rw [findGroup] at hf
        by_cases hec : e = c
        · subst hec
          rw [if_pos rfl] at hf
          exact List.mem_cons.mpr (Or.inl (by simpa using hf.symm))
        · rw [if_neg hec] at hf
          exact List.mem_cons.mpr (Or.inr ((mem_iff_findGroup rest hn'.2 c ks).mpr hf))

/-- `addToGroup` keeps the node handles, adding the target at the end when
it is new. -/
theorem addToGroup_fst :
    ∀ (gs : List (Nat × List String)) (c : Nat) (k : String),
      (addToGroup gs c k).map Prod.fst =
        if c ∈ gs.map Prod.fst then gs.map Prod.fst else gs.map Prod.fst ++ [c]
  | [], c, k => by simp [addToGroup]
  | (e, ls) :: rest, c, k => by
      by_cases hec : e = c
      · subst hec
        simp [addToGroup]
      · rw [addToGroup, if_neg hec]
        by_cases hmem : c ∈ rest.map Prod.fst <;>
          simp [addToGroup_fst rest c k, hmem, Ne.symm hec]

/-- The grouping fold keeps node handles distinct. -/
theorem groupFold_fst_nodup :
    ∀ (ps : List (Nat × String)) (gs : List (Nat × List String)),
      (gs.map Prod.fst).Nodup → ((groupFold gs ps).map Prod.fst).Nodup
  | [], gs, hn => by simpa [groupFold] using hn
  | (d, k) :: ps, gs, hn => by
      rw [groupFold]
      apply groupFold_fst_nodup ps
      rw [addToGroup_fst]
      by_cases hmem : d ∈ gs.map Prod.fst
      · simpa [hmem] using hn
      · rw [if_neg hmem]
        exact List.Nodup.append hn (List.nodup_singleton d)
          (by simpa [List.disjoint_singleton] using hmem)

/-- The keys a pair list of resolved keys assigns to node `c` are exactly
the keys resolving to `c`, in order. -/
theorem groupOf_resolvedPairs (cc : cacheCluster) :
    ∀ (keys : List String) (c : Nat),
      groupOf (resolvedPairs cc keys) c =
        keys.filter (fun k => cc.dispatcher.Get k = some c)
  | [], c => by simp [resolvedPairs, groupOf]
  | key :: rest, c => by
      have ih := groupOf_resolvedPairs cc rest c
      simp only [groupOf, resolvedPairs] at ih
      cases h : cc.dispatcher.Get key with
      | none =>
          simp [resolvedPairs, List.filterMap_cons, h, List.filter_cons, groupOf, ih]
      | some d =>
          by_cases hdc : d = c <;>
            simp [resolvedPairs, List.filterMap_cons, h, List.filter_cons, groupOf,
              ih, hdc]

/-- A node handle appears among the resolved pairs exactly when some key
resolves to it. -/
theorem mem_fst_resolvedPairs (cc : cacheCluster) (keys : List String) (c : Nat) :
    c ∈ (resolvedPairs cc keys).map Prod.fst ↔
      ∃ k ∈ keys, cc.dispatcher.Get k = some c := by
  simp only [resolvedPairs, List.map_filterMap, List.mem_filterMap]
  constructor
  · rintro ⟨k, hk, hopt⟩
    rcases ho : cc.dispatcher.Get k with _ | d
    · rw [ho] at hopt; simp at hopt
    · rw [ho] at hopt
      simp only [Option.map_some', Option.map_eq_some', Option.some.injEq] at hopt
      exact ⟨k, hk, by rw [ho, hopt]⟩
  · rintro ⟨k, hk, hres⟩
    exact ⟨k, hk, by rw [hres]; rfl⟩

/-- Claim C5: on a multi-key delete, the resolvable keys are partitioned by
their resolved node: the groups are the batches `DelCtx` delegates, each
node owning at least one key appears exactly once among them, its batch is
exactly the keys resolving to it (in order), and every resolvable key lies
in the batch of its owning node. -/
theorem DelCtx_partitions_keys_by_node (cc : cacheCluster) (ctx : Context)
    (keys : List String) (h2 : 2 ≤ keys.length) :
    cc.DelCtx ctx keys =
      (cc.runDel ctx (delGroups cc keys) (cc.routeDel keys ([], [])).1).err ∧
    ((delGroups cc keys).map Prod.fst).Nodup ∧
    (∀ c ks, (c, ks) ∈ delGroups cc keys →
      ks = keys.filter (fun k => cc.dispatcher.Get k = some c) ∧
      ∃ k ∈ keys, cc.dispatcher.Get k = some c) ∧
    (∀ k ∈ keys, ∀ c, cc.dispatcher.Get k = some c →
      ∃ ks, (c, ks) ∈ delGroups cc keys ∧ k ∈ ks) := by
  have hgroups : delGroups cc keys = groupFold [] (resolvedPairs cc keys) := by
    rw [delGroups, routeDel_snd]
  have hnodup : ((delGroups cc keys).map Prod.fst).Nodup := by
    rw [hgroups]
    exact groupFold_fst_nodup _ [] (by simp)
  have hfind : ∀ c, findGroup (delGroups cc keys) c =
      if c ∈ (resolvedPairs cc keys).map Prod.fst
      then some (groupOf (resolvedPairs cc keys) c) else none := by
    intro c
    rw [hgroups, groupFold_findGroup]
    simp only [findGroup, Option.isSome_none, Option.getD_none, List.nil_append]
    exact if_congr (by simp) rfl rfl
  refine ⟨?_, hnodup, ?_, ?_⟩
  · cases keys with
    | nil => simp at h2
    | cons a t =>
        cases t with
        | nil => simp at h2
        | cons b r => rfl
  · intro c ks hm
    have hf := (mem_iff_findGroup _ hnodup c ks).mp hm
    rw [hfind c] at hf
    by_cases hmem : c ∈ (resolvedPairs cc keys).map Prod.fst
    · rw [if_pos hmem] at hf
      have hks : ks = groupOf (resolvedPairs cc keys) c := by
        exact (Option.some.injEq _ _ ▸ hf).symm
      refine ⟨?_, (mem_fst_resolvedPairs cc keys c).mp hmem⟩
      rw [hks, groupOf_resolvedPairs]
    · rw [if_neg hmem] at hf
      exact absurd hf (by simp)
  · intro k hk c hres
    have hmem : c ∈ (resolvedPairs cc keys).map Prod.fst :=
      (mem_fst_resolvedPairs cc keys c).mpr ⟨k, hk, hres⟩
    refine ⟨groupOf (resolvedPairs cc keys) c, ?_, ?_⟩
    · exact (mem_iff_findGroup _ hnodup c _).mpr (by rw [hfind c, if_pos hmem])
    · rw [groupOf_resolvedPairs]
      exact List.mem_filter.mpr ⟨hk, by simp [hres]⟩

/-- Witness for C5: on keys `["", "b"]` the groups have pairwise distinct
node handles and the key `"b"` lands in the batch of its owner, node 0. -/
theorem DelCtx_partitions_keys_by_node_witness :
    ((delGroups mixedCluster ["", "b"]).map Prod.fst).Nodup ∧
    (∃ ks, (0, ks) ∈ delGroups mixedCluster ["", "b"] ∧ "b" ∈ ks) := by
  have h := DelCtx_partitions_keys_by_node mixedCluster .background ["", "b"] (by simp)
  exact ⟨h.2.1, h.2.2.2 "b" (by simp) 0 rfl⟩
